import Mathlib

/-!
Verification of the task-list manager in `script.js`.

The program is a browser to-do list.  Its logic-bearing core is:
`sanitizeText` (a chain of regex replacements), `validateTask`,
`saveToLocal` / `loadFromLocal` (JSON persistence to a single string key),
and `importTasks` (line-oriented text import).  Everything below is a
shallow embedding of those functions over `List Char` / `String`,
following the source line by line.  The DOM and rendering layer is not
modelled; stateful functions are written in explicit state-passing style.
-/

namespace Todo

/-! ## Character classes

`isJsWs` is the character set of the JavaScript regex class `\s`
(ECMAScript WhiteSpace ∪ LineTerminator), which is also the set removed
by `String.prototype.trim`.  `isWordChar` is `\w`.  `isCtlChar` is the
class `[\x00-\x08\x0B\x0C\x0E-\x1F\x7F]` from `script.js` line 81. -/

def isJsWs (c : Char) : Bool :=
  let n := c.toNat
  n == 9 || n == 10 || n == 11 || n == 12 || n == 13 || n == 32 ||
  n == 160 || n == 0x1680 || (0x2000 ≤ n && n ≤ 0x200A) ||
  n == 0x2028 || n == 0x2029 || n == 0x202F || n == 0x205F ||
  n == 0x3000 || n == 0xFEFF

def isWordChar (c : Char) : Bool :=
  c.isAlphanum || c == '_'

def isCtlChar (c : Char) : Bool :=
  let n := c.toNat
  n ≤ 8 || n == 11 || n == 12 || (14 ≤ n && n ≤ 31) || n == 127

/-- ASCII lower-casing of one character, the behaviour of
`String.prototype.toLowerCase` (and of `/i` canonicalisation) on the
ASCII range, which is the only range the source's patterns use. -/
def lowChar (c : Char) : Char :=
  c.toLower

/-- Model of `s.toLowerCase()` (used by the duplicate check,
`script.js` lines 103-105). -/
def jsToLower (s : String) : String :=
  String.mk (s.data.map lowChar)

/-- Case-insensitive "the second list starts with the first" test,
used to model the literal parts of the `/gi` regexes. -/
def startsWithCI : List Char → List Char → Bool
  | [], _ => true
  | _ :: _, [] => false
  | p :: ps, c :: cs => (lowChar c == lowChar p) && startsWithCI ps cs

/-! ## One pass of `String.prototype.replace(/…/g, '')`

Each removal regex in `sanitizeText` is represented by a matcher
`f : List Char → Option Nat` giving the length of the match anchored at
the head of the list (`none` when no match starts here).  `scanRemoveF`
is the global-replace driver: scan left to right, drop each match,
otherwise keep the character — exactly the semantics of a global
regex replace whose replacement is the empty string.  The fuel argument
makes the recursion structural; one unit of fuel is spent per character
consumed, so `fuel = l.length` always suffices (matches have length
≥ 1, enforced by the `some (n+1)` pattern). -/

def scanRemoveF (f : List Char → Option Nat) : Nat → List Char → List Char
  | _, [] => []
  | 0, l => l
  | fuel+1, c :: t =>
    match f (c :: t) with
    | some (n+1) => scanRemoveF f fuel (t.drop n)
    | _ => c :: scanRemoveF f fuel t

def scanRemove (f : List Char → Option Nat) (l : List Char) : List Char :=
  scanRemoveF f l.length l

/-- Length up to and including the first case-insensitive occurrence of
`</name>`, if any. -/
def findCloseLen (name : List Char) : List Char → Option Nat
  | [] => none
  | c :: t =>
    if startsWithCI ('<' :: '/' :: (name ++ ['>'])) (c :: t) then
      some (name.length + 3)
    else
      (findCloseLen name t).map (· + 1)

/-- Length up to and including the first `>`, if any. -/
def findGtLen : List Char → Option Nat
  | [] => none
  | c :: t => if c == '>' then some 1 else (findGtLen t).map (· + 1)

/-- The word boundary `\b` after a literal word: holds when the next
character is not a `\w` character (or at end of input). -/
def boundaryOk : List Char → Bool
  | [] => true
  | c :: _ => !isWordChar c

/-- Matcher for `/<name\b[^<]*(?:(?!<\/name>)<[^<]*)*<\/name>/gi`
(`script.js` lines 53-57): from `<name` with a word boundary, through
the first following `</name>`. -/
def matchBlock (name : List Char) (l : List Char) : Option Nat :=
  if startsWithCI ('<' :: name) l then
    if boundaryOk (l.drop (1 + name.length)) then
      (findCloseLen name (l.drop (1 + name.length))).map (1 + name.length + ·)
    else none
  else none

/-- Matcher for `/<name\b[^>]*>/gi` (`script.js` lines 58-59, for
`link` and `meta`): from `<name` with a word boundary through the first
following `>`. -/
def matchSelfClosing (name : List Char) (l : List Char) : Option Nat :=
  if startsWithCI ('<' :: name) l then
    if boundaryOk (l.drop (1 + name.length)) then
      (findGtLen (l.drop (1 + name.length))).map (1 + name.length + ·)
    else none
  else none

/-- Matcher for `/on\w+\s*=\s*["'][^"']*["']/gi` (`script.js` line 60):
`on`, at least one word character (greedy, `dropWhile`), optional
whitespace, `=`, optional whitespace, a quote, non-quote characters,
and a closing quote (either kind, as in the regex).  The `takeWhile`
lengths reconstruct the total length of the match. -/
def matchOnHandler (l : List Char) : Option Nat :=
  if startsWithCI ['o', 'n'] l then
    if ((l.drop 2).takeWhile isWordChar).length == 0 then none
    else
      match ((l.drop 2).dropWhile isWordChar).dropWhile isJsWs with
      | '=' :: r4 =>
        match r4.dropWhile isJsWs with
        | q :: r6 =>
          if q == '"' || q == '\'' then
            match r6.dropWhile (fun c => c != '"' && c != '\'') with
            | _ :: _ =>
              some (2 + ((l.drop 2).takeWhile isWordChar).length
                + (((l.drop 2).dropWhile isWordChar).takeWhile isJsWs).length
                + 1 + (r4.takeWhile isJsWs).length + 1
                + (r6.takeWhile (fun c => c != '"' && c != '\'')).length + 1)
            | [] => none
          else none
        | [] => none
      | _ => none
  else none

/-- Matcher for `/name\s*:/gi` (`script.js` lines 61-63, for
`javascript`, `data`, `vbscript`). -/
def matchScheme (name : List Char) (l : List Char) : Option Nat :=
  if startsWithCI name l then
    match (l.drop name.length).dropWhile isJsWs with
    | ':' :: _ => some (name.length + ((l.drop name.length).takeWhile isJsWs).length + 1)
    | _ => none
  else none

/-- Matcher for `/<[^>]*>/g` (`script.js` line 64): any `<` through the
first following `>`. -/
def matchAnyTag (l : List Char) : Option Nat :=
  match l with
  | '<' :: t => (findGtLen t).map (· + 1)
  | _ => none

/-! ## The non-removal stages of `sanitizeText` -/

/-- The escape map of `script.js` lines 65-75. -/
def escChar (c : Char) : List Char :=
  if c == '<' then "&lt;".data
  else if c == '>' then "&gt;".data
  else if c == '"' then "&quot;".data
  else if c == '\'' then "&#x27;".data
  else if c == '&' then "&amp;".data
  else [c]

def escapeChars (l : List Char) : List Char :=
  (l.map escChar).flatten

/-- `text.trim()`. -/
def trimWs (l : List Char) : List Char :=
  ((l.dropWhile isJsWs).reverse.dropWhile isJsWs).reverse

/-- `text.replace(/\s+/g, ' ')` with fuel (structural recursion; each
step consumes at least one character, so `fuel = l.length` is exact). -/
def collapseWsF : Nat → List Char → List Char
  | _, [] => []
  | 0, l => l
  | fuel+1, c :: t =>
    if isJsWs c then ' ' :: collapseWsF fuel (t.dropWhile isJsWs)
    else c :: collapseWsF fuel t

def collapseWs (l : List Char) : List Char :=
  collapseWsF l.length l

/-! ## `sanitizeText` (`script.js` lines 43-84) -/

/-- The full replacement chain of `sanitizeText`, in source order. -/
def sanitizeList (l : List Char) : List Char :=
  let t := trimWs l
  let t := scanRemove (matchBlock "script".data) t
  let t := scanRemove (matchBlock "style".data) t
  let t := scanRemove (matchBlock "iframe".data) t
  let t := scanRemove (matchBlock "object".data) t
  let t := scanRemove (matchBlock "embed".data) t
  let t := scanRemove (matchSelfClosing "link".data) t
  let t := scanRemove (matchSelfClosing "meta".data) t
  let t := scanRemove matchOnHandler t
  let t := scanRemove (matchScheme "javascript".data) t
  let t := scanRemove (matchScheme "data".data) t
  let t := scanRemove (matchScheme "vbscript".data) t
  let t := scanRemove matchAnyTag t
  let t := escapeChars t
  let t := trimWs (collapseWs t)
  t.filter (fun c => !isCtlChar c)

/-- `sanitizeText` on an actual string (the `typeof text !== 'string'`
branch of the source is modelled where dynamic values occur, in
`loadFromLocal`'s coercion). -/
def sanitizeText (s : String) : String :=
  String.mk (sanitizeList s.data)

/-! ## Data model -/

/-- A task: `{ text, done }` (`script.js` uses plain objects with these
two fields). -/
structure Task where
  text : String
  done : Bool
deriving DecidableEq, Repr

/-- The dynamic values produced by `JSON.parse`: the shape a persisted
blob can take once parsed. -/
inductive Json where
  | null
  | bool (b : Bool)
  | num (n : Int)
  | str (s : String)
  | arr (items : List Json)
  | obj (fields : List (String × Json))

/-- Truthiness of a parsed JSON value in JavaScript. -/
def jsTruthy : Json → Bool
  | .null => false
  | .bool b => b
  | .num n => n != 0
  | .str s => s != ""
  | .arr _ => true
  | .obj _ => true

/-- `item && typeof item === 'object'` (`script.js` line 163): `null`
is excluded by truthiness, arrays and objects have `typeof 'object'`. -/
def jsObjLike : Json → Bool
  | .arr _ => true
  | .obj _ => true
  | _ => false

/-- JavaScript property access `item.k` on a parsed JSON value:
`none` models `undefined`.  Later duplicate keys win, as in
`JSON.parse`. -/
def jsGetField (j : Json) (k : String) : Option Json :=
  match j with
  | .obj fields => fields.foldl (fun acc p => if p.1 == k then some p.2 else acc) none
  | _ => none

/-! ## JSON serialization (`JSON.stringify(todos)`)

`saveToLocal` serializes the task array only to measure its length
against the 5 MiB limit and to write it; `loadFromLocal` consumes the
result of `JSON.parse` on the same key.  The serializer below follows
`JSON.stringify` for the values the program writes (objects with a
string and a boolean field, in insertion order `text`, `done`); the
stored blob itself is modelled post-parse as a `Json` value, so that a
blob written by `saveToLocal todos` parses back to
`Json.arr (todos.map taskToJson)`. -/

def taskToJson (t : Task) : Json :=
  .obj [("text", .str t.text), ("done", .bool t.done)]

def hexDigitChar (n : Nat) : Char :=
  if n < 10 then Char.ofNat ('0'.toNat + n) else Char.ofNat ('a'.toNat + (n - 10))

/-- `QuoteJSONString` escaping of one character. -/
def jsonEscChar (c : Char) : List Char :=
  if c == '"' then ['\\', '"']
  else if c == '\\' then ['\\', '\\']
  else if c.toNat == 8 then ['\\', 'b']
  else if c.toNat == 9 then ['\\', 't']
  else if c.toNat == 10 then ['\\', 'n']
  else if c.toNat == 12 then ['\\', 'f']
  else if c.toNat == 13 then ['\\', 'r']
  else if c.toNat < 32 then ['\\', 'u', '0', '0', hexDigitChar (c.toNat / 16), hexDigitChar (c.toNat % 16)]
  else [c]

def jsonQuote (s : String) : String :=
  "\"" ++ String.mk ((s.data.map jsonEscChar).flatten) ++ "\""

def taskJsonString (t : Task) : String :=
  "\x7b\"text\":" ++ jsonQuote t.text ++ ",\"done\":" ++ (if t.done then "true" else "false") ++ "\x7d"

def jsonItems : List Task → String
  | [] => ""
  | [t] => taskJsonString t
  | t :: ts => taskJsonString t ++ "," ++ jsonItems ts

/-- `JSON.stringify(todos)`. -/
def todosJsonString (l : List Task) : String :=
  "[" ++ jsonItems l ++ "]"

/-! ## The store (`localStorage` under `STORAGE_KEY`) -/

/-- The state of the persisted blob: the key can be absent, hold a
string that `JSON.parse` rejects, or hold a string that parses to a
`Json` value. -/
inductive StoredBlob where
  | absent
  | malformed (raw : String)
  | json (j : Json)

structure Store where
  blob : StoredBlob

def emptyStore : Store := ⟨.absent⟩

/-- `localStorage.setItem` can throw (e.g. `QuotaExceededError`);
`writeFails` says whether this call does. -/
def setItemTodos (writeFails : Bool) (st : Store) (todos : List Task) : Except String Store :=
  if writeFails then .error "QuotaExceededError"
  else .ok { st with blob := .json (.arr (todos.map taskToJson)) }

/-- `saveToLocal` (`script.js` lines 123-143).  Returns the success
flag and the resulting store; the `try`/`catch` around `setItem` is
the `Except` match, so a write failure yields `false` instead of
propagating. -/
def saveToLocal (autosave writeFails : Bool) (todos : List Task) (st : Store) : Bool × Store :=
  if autosave then
    let dataString := todosJsonString todos
    if dataString.length > 5 * 1024 * 1024 then (false, st)
    else
      match setItemTodos writeFails st todos with
      | .ok st' => (true, st')
      | .error _ => (false, st)
  else (true, st)

/-- The per-item coercion of `loadFromLocal` (`script.js` lines
164-167): `text: sanitizeText(item.text || ''), done: Boolean(item.done)`.
`sanitizeText` returns `''` on non-string input (line 44-46). -/
def coerceItem (j : Json) : Task :=
  let textArg : Json := match jsGetField j "text" with
    | some v => if jsTruthy v then v else .str ""
    | none => .str ""
  let text : String := match textArg with
    | .str s => sanitizeText s
    | _ => ""
  let done : Bool := match jsGetField j "done" with
    | some v => jsTruthy v
    | none => false
  ⟨text, done⟩

/-- `loadFromLocal` (`script.js` lines 149-175).  An absent key returns
`[]`; a malformed blob makes `JSON.parse` throw, a non-array parse
throws `'Invalid data format'`; both are caught and yield `[]`. -/
def loadFromLocal (st : Store) : List Task :=
  match st.blob with
  | .absent => []
  | .malformed _ => []
  | .json (.arr items) =>
    ((((items.filter jsObjLike).map coerceItem).filter (fun t => t.text != "")).take 1000)
  | .json _ => []

/-! ## The validator (`validateTask`, `script.js` lines 91-117) -/

inductive ValidationError where
  | empty
  | tooLong
  | duplicate
  | capacity
deriving DecidableEq, Repr

/-- The result object `{ valid, error }` / `{ valid, sanitized }`. -/
inductive ValidationResult where
  | invalid (err : ValidationError)
  | ok (sanitized : String)
deriving DecidableEq, Repr

/-- `validateTask`: sanitize, then the four checks in source order.
`VALIDATION.MIN_LENGTH = 1`, `MAX_LENGTH = 100`, `MAX_TASKS = 1000`. -/
def validateTask (todos : List Task) (text : String) : ValidationResult :=
  let sanitized := sanitizeText text
  if sanitized.length < 1 then .invalid .empty
  else if sanitized.length > 100 then .invalid .tooLong
  else if todos.any (fun todo => jsToLower todo.text == jsToLower sanitized) then .invalid .duplicate
  else if todos.length ≥ 1000 then .invalid .capacity
  else .ok sanitized

/-! ## Task-list operations (`addTask`, delete, toggle) -/

/-- `addTask` (`script.js` lines 251-272), restricted to its effect on
the task list and the store: on validation failure nothing changes; on
success the task is pushed, and popped again if `saveToLocal` fails. -/
def addTask (autosave writeFails : Bool) (inputVal : String) (todos : List Task) (st : Store) :
    List Task × Store :=
  match validateTask todos inputVal with
  | .invalid _ => (todos, st)
  | .ok s =>
    let todos' := todos ++ [⟨s, false⟩]
    let r := saveToLocal autosave writeFails todos' st
    if r.1 then (todos', r.2) else (todos, r.2)

/-- The delete button handler (`script.js` line 217): `todos.splice(idx, 1)`. -/
def deleteTask (idx : Nat) (todos : List Task) : List Task :=
  todos.eraseIdx idx

/-- The finish button handler (`script.js` line 229):
`todos[idx].done = !todos[idx].done`. -/
def toggleTask (idx : Nat) (todos : List Task) : List Task :=
  match todos[idx]? with
  | some t => todos.set idx ⟨t.text, !t.done⟩
  | none => todos

/-! ## The importer (`importTasks`, `script.js` lines 313-376) -/

/-- The metadata and decoded content of the picked file. -/
structure ImportFile where
  size : Nat
  type : String
  name : String
  content : String

/-- `content.split(/\r?\n/)`. -/
def splitLinesGo : List Char → List Char → List (List Char)
  | acc, [] => [acc.reverse]
  | acc, '\r' :: '\n' :: t => acc.reverse :: splitLinesGo [] t
  | acc, '\n' :: t => acc.reverse :: splitLinesGo [] t
  | acc, c :: t => splitLinesGo (c :: acc) t

def splitLines (s : String) : List String :=
  (splitLinesGo [] s.data).map String.mk

/-- Substring containment, for `file.type.includes('text')`. -/
def hasSub (needle : List Char) : List Char → Bool
  | [] => needle.isEmpty
  | c :: t => needle.isPrefixOf (c :: t) || hasSub needle t

/-- `sanitizedLine.replace(/^\[[xX ]\]\s*/, "")` (`script.js` line 347). -/
def stripMarker (l : List Char) : List Char :=
  match l with
  | '[' :: m :: ']' :: rest =>
    if m == 'x' || m == 'X' || m == ' ' then rest.dropWhile isJsWs else l
  | _ => l

/-- The non-blank lines of the file
(`content.split(/\r?\n/).filter(line => line.trim())`, line 334). -/
def importLines (content : String) : List String :=
  (splitLines content).filter (fun line => trimWs line.data != ([] : List Char))

/-- The loop body of lines 342-353 over one line: sanitize, detect and
strip the `[x]`/`[X]`/`[ ]` marker, re-sanitize, keep if non-empty and
at most 100 characters. -/
def importLine (line : String) : Option Task :=
  let sanitizedLine := sanitizeText line
  if sanitizedLine == "" then none
  else
    let done := "[x]".data.isPrefixOf sanitizedLine.data || "[X]".data.isPrefixOf sanitizedLine.data
    let text := sanitizeText (String.mk (stripMarker sanitizedLine.data))
    if text != "" && text.length ≤ 100 then some ⟨text, done⟩ else none

/-- The reader callback of `importTasks` (lines 331-368) on the decoded
content: returns the resulting task list (the current one if the import
aborts) and whether the import replaced the list. -/
def importFromContent (content : String) (current : List Task) : List Task × Bool :=
  let lines := importLines content
  if lines.length > 1000 then (current, false)
  else
    let newTodos := lines.filterMap importLine
    if newTodos.isEmpty then (current, false)
    else (newTodos, true)

/-- `importTasks` (lines 313-376): the file-size check
(`VALIDATION.ALLOWED_FILE_SIZE = 1 MiB`), the MIME-type/extension
check, then the content processing. -/
def importTasks (f : ImportFile) (current : List Task) : List Task × Bool :=
  if f.size > 1024 * 1024 then (current, false)
  else if !hasSub "text".data f.type.data && !(".txt".data.isSuffixOf f.name.data) then (current, false)
  else importFromContent f.content current

/-! ## The task-list invariant (spec section 3) -/

/-- "No two tasks have case-insensitively equal `text`". -/
def NoDupCI (todos : List Task) : Prop :=
  (todos.map (fun t => jsToLower t.text)).Nodup

instance (todos : List Task) : Decidable (NoDupCI todos) := by
  unfold NoDupCI; infer_instance

/-- The full spec invariant: no case-insensitive duplicate texts and at
most 1000 tasks. -/
def TodosInvariant (todos : List Task) : Prop :=
  NoDupCI todos ∧ todos.length ≤ 1000

instance (todos : List Task) : Decidable (TodosInvariant todos) := by
  unfold TodosInvariant; infer_instance

/-! # Claim C3: `sanitizeText "a&b<c>"`

The spec asserts `sanitize("a&b<c>") = "a&amp;b&lt;c&gt;"`.  But the
source's own rule order (spec §4.1 step 5, `script.js` line 64) removes
`<c>` as a markup tag before the escaping stage ever sees it, so the
code returns `"a&amp;b"`. -/

/-- C3 counterexample: on the input `"a&b<c>"` the code does not return
the string `"a&amp;b&lt;c&gt;"` claimed by the spec. -/
theorem sanitizeText_abc_claim_false :
    sanitizeText "a&b<c>" ≠ "a&amp;b&lt;c&gt;" := by decide

/-- C3 amended: `sanitizeText "a&b<c>"` returns `"a&amp;b"`: the
substring `<c>` is removed by the strip-all-tags stage, and the
surviving `&` is escaped. -/
theorem sanitizeText_abc :
    sanitizeText "a&b<c>" = "a&amp;b" := by decide

/-! # Claim C9: importing two sample lines -/

/-- C9: importing the text `"[x] Buy milk\n[ ] Walk dog\n"` (as a small
text file) replaces the list with exactly
`[{text := "Buy milk", done := true}, {text := "Walk dog", done := false}]`,
in that order. -/
theorem importTasks_sample :
    importTasks ⟨28, "text/plain", "tasks.txt", "[x] Buy milk\n[ ] Walk dog\n"⟩ [] =
      ([⟨"Buy milk", true⟩, ⟨"Walk dog", false⟩], true) := by decide

/-! # Claim C2: idempotence of `sanitizeText`

False as stated: the escaping stage replaces every `&` of its input,
including the `&` of entities produced by a previous sanitization, so
`sanitizeText "&" = "&amp;"` but `sanitizeText "&amp;" = "&amp;amp;"`. -/

/-- C2 counterexample: `sanitizeText` is not idempotent; the string
`"&"` witnesses `sanitizeText (sanitizeText s) ≠ sanitizeText s`. -/
theorem sanitizeText_not_idempotent :
    sanitizeText (sanitizeText "&") ≠ sanitizeText "&" := by decide

/-! # Claim C5: `validateTask` checks exactly one condition, in order -/

theorem eq_empty_of_length_zero {s : String} (h : s.length = 0) : s = "" := by
  cases s with
  | mk data =>
    have hd : data = [] := List.length_eq_zero.mp h
    rw [hd]

/-- C5: `validateTask` surfaces exactly one error, in priority order:
empty-after-sanitization before too-long, too-long before
case-insensitive duplicate, duplicate before capacity; when no
condition fires it returns the sanitized text. -/
theorem validateTask_priority (todos : List Task) (text : String) :
    (sanitizeText text = "" → validateTask todos text = .invalid .empty) ∧
    (sanitizeText text ≠ "" → 100 < (sanitizeText text).length →
      validateTask todos text = .invalid .tooLong) ∧
    (sanitizeText text ≠ "" → (sanitizeText text).length ≤ 100 →
      todos.any (fun todo => jsToLower todo.text == jsToLower (sanitizeText text)) = true →
      validateTask todos text = .invalid .duplicate) ∧
    (sanitizeText text ≠ "" → (sanitizeText text).length ≤ 100 →
      todos.any (fun todo => jsToLower todo.text == jsToLower (sanitizeText text)) = false →
      1000 ≤ todos.length →
      validateTask todos text = .invalid .capacity) ∧
    (sanitizeText text ≠ "" → (sanitizeText text).length ≤ 100 →
      todos.any (fun todo => jsToLower todo.text == jsToLower (sanitizeText text)) = false →
      todos.length < 1000 →
      validateTask todos text = .ok (sanitizeText text)) := by
  have hlen : sanitizeText text ≠ "" → ¬ (sanitizeText text).length < 1 := by
    intro h1 hlt
    exact h1 (eq_empty_of_length_zero (Nat.lt_one_iff.mp hlt))
  refine ⟨?_, ?_, ?_, ?_, ?_⟩
  · intro h1
    simp only [validateTask, h1]
    rw [if_pos (by decide)]
  · intro h1 h2
    simp only [validateTask, if_neg (hlen h1), if_pos h2]
  · intro h1 h2 h3
    simp only [validateTask, if_neg (hlen h1), if_neg (Nat.not_lt.mpr h2), h3, if_pos]
  · intro h1 h2 h3 h4
    simp only [validateTask, if_neg (hlen h1), if_neg (Nat.not_lt.mpr h2), h3,
      Bool.false_eq_true, if_false, if_pos h4]
  · intro h1 h2 h3 h4
    simp only [validateTask, if_neg (hlen h1), if_neg (Nat.not_lt.mpr h2), h3,
      Bool.false_eq_true, if_false, if_neg (Nat.not_le.mpr h4)]

/-- C5 witness: concrete instances of the first and third branches. -/
theorem validateTask_priority_witness :
    validateTask [] "<b></b>" = .invalid .empty ∧
    validateTask [⟨"hi", false⟩] "HI" = .invalid .duplicate :=
  ⟨(validateTask_priority [] "<b></b>").1 (by decide),
   (validateTask_priority [⟨"hi", false⟩] "HI").2.2.1 (by decide) (by decide) (by decide)⟩

/-! # Claim C8: `saveToLocal` behaviour -/

/-- C8: with persistence disabled `saveToLocal` succeeds without
writing; with it enabled it returns `false` leaving the store unchanged
when the serialized size exceeds 5 MiB, returns `false` (instead of
propagating the exception) when the underlying write throws, and
otherwise writes the serialized list and returns `true`. -/
theorem saveToLocal_spec (autosave writeFails : Bool) (todos : List Task) (st : Store) :
    (autosave = false → saveToLocal autosave writeFails todos st = (true, st)) ∧
    (autosave = true → 5 * 1024 * 1024 < (todosJsonString todos).length →
      saveToLocal autosave writeFails todos st = (false, st)) ∧
    (autosave = true → (todosJsonString todos).length ≤ 5 * 1024 * 1024 → writeFails = true →
      saveToLocal autosave writeFails todos st = (false, st)) ∧
    (autosave = true → (todosJsonString todos).length ≤ 5 * 1024 * 1024 → writeFails = false →
      saveToLocal autosave writeFails todos st =
        (true, { st with blob := .json (.arr (todos.map taskToJson)) })) := by
  refine ⟨?_, ?_, ?_, ?_⟩
  · intro h
    simp [saveToLocal, h]
  · intro h h2
    simp only [saveToLocal, h, if_true]
    rw [if_pos h2]
  · intro h h2 h3
    simp only [saveToLocal, h, if_true, setItemTodos, h3]
    rw [if_neg (Nat.not_lt.mpr h2)]
  · intro h h2 h3
    simp only [saveToLocal, h, if_true, setItemTodos, h3]
    rw [if_neg (Nat.not_lt.mpr h2)]
    simp

/-- C8 witness: the disabled, too-large-free write-failure and success
branches at concrete inputs. -/
theorem saveToLocal_spec_witness :
    saveToLocal false true [] emptyStore = (true, emptyStore) ∧
    saveToLocal true true [] emptyStore = (false, emptyStore) ∧
    saveToLocal true false [] emptyStore = (true, ⟨.json (.arr [])⟩) :=
  ⟨(saveToLocal_spec false true [] emptyStore).1 rfl,
   (saveToLocal_spec true true [] emptyStore).2.2.1 rfl (by decide) rfl,
   (saveToLocal_spec true false [] emptyStore).2.2.2 rfl (by decide) rfl⟩

/-! # Claim C6: every import failure path preserves the current list -/

/-- C6: an import aborted for any of the four reasons — file larger
than 1 MiB, file lacking a text MIME type and a `.txt` extension, more
than 1000 non-blank lines, or zero valid lines — returns the current
task list unchanged. -/
theorem importTasks_failure_preserves (f : ImportFile) (current : List Task) :
    (1024 * 1024 < f.size → importTasks f current = (current, false)) ∧
    (f.size ≤ 1024 * 1024 → hasSub "text".data f.type.data = false →
      (".txt".data.isSuffixOf f.name.data) = false →
      importTasks f current = (current, false)) ∧
    (f.size ≤ 1024 * 1024 →
      (hasSub "text".data f.type.data || ".txt".data.isSuffixOf f.name.data) = true →
      1000 < (importLines f.content).length →
      importTasks f current = (current, false)) ∧
    (f.size ≤ 1024 * 1024 →
      (hasSub "text".data f.type.data || ".txt".data.isSuffixOf f.name.data) = true →
      (importLines f.content).length ≤ 1000 →
      (importLines f.content).filterMap importLine = [] →
      importTasks f current = (current, false)) := by
  refine ⟨?_, ?_, ?_, ?_⟩
  · intro h
    simp only [importTasks]
    rw [if_pos h]
  · intro h h2 h3
    simp only [importTasks, h2, h3]
    rw [if_neg (Nat.not_lt.mpr h)]
    simp
  · intro h h2 h3
    simp only [importTasks, importFromContent]
    rw [if_neg (Nat.not_lt.mpr h)]
    rcases Bool.or_eq_true_iff.mp h2 with h2' | h2' <;>
      simp [h2', if_pos h3]
  · intro h h2 h3 h4
    simp only [importTasks, importFromContent, h4]
    rw [if_neg (Nat.not_lt.mpr h)]
    rcases Bool.or_eq_true_iff.mp h2 with h2' | h2' <;>
      simp [h2', if_neg (Nat.not_lt.mpr h3)]

/-- C6 witness: the oversize, wrong-type and zero-valid-lines abort
paths at concrete files, each leaving the one-task list unchanged. -/
theorem importTasks_failure_preserves_witness :
    importTasks ⟨2000000, "text/plain", "a.txt", "x"⟩ [⟨"keep", false⟩] = ([⟨"keep", false⟩], false) ∧
    importTasks ⟨3, "application/pdf", "a.pdf", "x"⟩ [⟨"keep", false⟩] = ([⟨"keep", false⟩], false) ∧
    importTasks ⟨1, "text/plain", "a.txt", " "⟩ [⟨"keep", false⟩] = ([⟨"keep", false⟩], false) :=
  ⟨(importTasks_failure_preserves ⟨2000000, "text/plain", "a.txt", "x"⟩ [⟨"keep", false⟩]).1
      (by decide),
   (importTasks_failure_preserves ⟨3, "application/pdf", "a.pdf", "x"⟩ [⟨"keep", false⟩]).2.1
      (by decide) (by decide) (by decide),
   (importTasks_failure_preserves ⟨1, "text/plain", "a.txt", " "⟩ [⟨"keep", false⟩]).2.2.2
      (by decide) (by decide) (by decide) (by decide)⟩

/-! # Claim C7: `loadFromLocal` behaviour -/

theorem sanitizeText_empty : sanitizeText "" = "" := rfl

/-- The per-record coercion as spec §4.3 words it: `text` defaulted to
empty when missing or not a string, otherwise sanitized; `done` coerced
to boolean truthiness.  Written from the spec's sentence for the
refinement claim C7, to be compared with `coerceItem` from the code. -/
def loadSpecCoerce (j : Json) : Task :=
  ⟨(match jsGetField j "text" with
    | some (.str s) => sanitizeText s
    | _ => ""),
   (match jsGetField j "done" with
    | some v => jsTruthy v
    | none => false)⟩

/-- `load()` as spec §4.3 words it: absent blob → empty list; present
but not parseable as an array of records → empty list (reported, not a
crash — modelled by totality); otherwise every record coerced, records
with empty resulting text dropped, and the first 1000 kept. -/
def loadSpec (st : Store) : List Task :=
  match st.blob with
  | .absent => []
  | .malformed _ => []
  | .json (.arr items) => ((items.map loadSpecCoerce).filter (fun t => t.text != "")).take 1000
  | .json _ => []

theorem coerceItem_eq (j : Json) : coerceItem j = loadSpecCoerce j := by
  unfold coerceItem loadSpecCoerce
  cases h : jsGetField j "text" with
  | none => simp [h, sanitizeText_empty]
  | some v =>
    cases v with
    | str s =>
      by_cases hs : s = ""
      · subst hs
        simp [h, jsTruthy, sanitizeText_empty]
      · simp [h, jsTruthy, hs]
    | null => simp [h, jsTruthy, sanitizeText_empty]
    | bool b => cases b <;> simp [h, jsTruthy, sanitizeText_empty]
    | num n =>
      by_cases hn : n = 0
      · subst hn
        simp [h, jsTruthy, sanitizeText_empty]
      · simp [h, jsTruthy, hn]
    | arr items => simp [h, jsTruthy]
    | obj fields => simp [h, jsTruthy]

theorem not_objLike_text (j : Json) (h : jsObjLike j = false) :
    (loadSpecCoerce j).text = "" := by
  cases j <;> simp_all [jsObjLike, loadSpecCoerce, jsGetField]

theorem loadLists (items : List Json) :
    ((items.filter jsObjLike).map coerceItem).filter (fun t => t.text != "") =
      (items.map loadSpecCoerce).filter (fun t => t.text != "") := by
  induction items with
  | nil => rfl
  | cons j rest ih =>
    by_cases hj : jsObjLike j = true
    · simp only [List.filter_cons, hj, if_true, List.map_cons, coerceItem_eq, ih]
    · have hb : jsObjLike j = false := by
        cases hx : jsObjLike j
        · rfl
        · exact absurd hx hj
      have ht : (loadSpecCoerce j).text = "" := not_objLike_text j hb
      simp only [List.filter_cons, hb, Bool.false_eq_true, if_false, List.map_cons, ih, ht]
      simp

/-- C7: `loadFromLocal` meets the spec's description of `load()`: an
absent blob yields `[]`; a blob that does not parse as an array of
records yields `[]` (and never a crash); otherwise each record is
coerced (`done` to boolean truthiness, `text` defaulted to empty and
sanitized), records with empty sanitized text are dropped, and the
first 1000 surviving records are returned. -/
theorem loadFromLocal_meets_spec (st : Store) : loadFromLocal st = loadSpec st := by
  rcases st with ⟨blob⟩
  cases blob with
  | absent => rfl
  | malformed raw => rfl
  | json j =>
    cases j with
    | arr items =>
      simp only [loadFromLocal, loadSpec, loadLists]
    | null => rfl
    | bool b => rfl
    | num n => rfl
    | str s => rfl
    | obj fields => rfl

/-! # Claim C4: the task-list invariant across operations

The claim as stated is false: neither `importTasks` nor `loadFromLocal`
filters case-insensitive duplicates (spec §4.4 itself notes the
asymmetry for import), so those two operations can produce lists
violating the no-duplicates half of the invariant.  Interactive add,
delete and toggle do preserve it, and all five operations respect the
1000-entry bound. -/

theorem validateTask_ok_facts {todos : List Task} {text s : String}
    (h : validateTask todos text = .ok s) :
    s = sanitizeText text ∧
      todos.any (fun todo => jsToLower todo.text == jsToLower s) = false ∧
      todos.length < 1000 := by
  simp only [validateTask] at h
  by_cases h1 : (sanitizeText text).length < 1
  · rw [if_pos h1] at h
    exact absurd h (by simp)
  · rw [if_neg h1] at h
    by_cases h2 : (sanitizeText text).length > 100
    · rw [if_pos h2] at h
      exact absurd h (by simp)
    · rw [if_neg h2] at h
      cases h3 : todos.any (fun todo => jsToLower todo.text == jsToLower (sanitizeText text)) with
      | true =>
        rw [h3, if_pos rfl] at h
        exact absurd h (by simp)
      | false =>
        simp only [h3, Bool.false_eq_true, if_false] at h
        by_cases h4 : todos.length ≥ 1000
        · rw [if_pos h4] at h
          exact absurd h (by simp)
        · rw [if_neg h4] at h
          have hs : sanitizeText text = s := by injection h
          subst hs
          exact ⟨rfl, h3, Nat.not_le.mp h4⟩

theorem addTask_invariant (autosave writeFails : Bool) (inputVal : String)
    (todos : List Task) (st : Store) (h : TodosInvariant todos) :
    TodosInvariant (addTask autosave writeFails inputVal todos st).1 := by
  unfold addTask
  cases hv : validateTask todos inputVal with
  | invalid e => exact h
  | ok s =>
    obtain ⟨-, hdup, hlt⟩ := validateTask_ok_facts hv
    have hinv' : TodosInvariant (todos ++ [⟨s, false⟩]) := by
      constructor
      · unfold NoDupCI List.Nodup
        rw [List.map_append]
        refine List.pairwise_append.mpr ⟨h.1, List.pairwise_singleton _ _, ?_⟩
        intro a ha b hb
        simp only [List.map_cons, List.map_nil, List.mem_singleton] at hb
        subst hb
        rcases List.mem_map.mp ha with ⟨todo, hmem, rfl⟩
        have := (List.any_eq_false.mp hdup) todo hmem
        intro he
        exact this (by simp [he])
      · simp only [List.length_append, List.length_cons, List.length_nil]
        omega
    dsimp only
    split
    · exact hinv'
    · exact h

theorem deleteTask_invariant (idx : Nat) (todos : List Task) (h : TodosInvariant todos) :
    TodosInvariant (deleteTask idx todos) := by
  refine ⟨?_, ?_⟩
  · exact List.Nodup.sublist ((List.eraseIdx_sublist todos idx).map _) h.1
  · exact Nat.le_trans (List.length_eraseIdx_le todos idx) h.2

theorem toggleTask_texts (idx : Nat) (todos : List Task) :
    (toggleTask idx todos).map (fun t => jsToLower t.text) =
      todos.map (fun t => jsToLower t.text) := by
  unfold toggleTask
  cases hg : todos[idx]? with
  | none => rfl
  | some t =>
    rw [List.map_set]
    apply List.ext_getElem?
    intro n
    rw [List.getElem?_set]
    split
    · rename_i hn
      subst hn
      split
      · rw [List.getElem?_map, hg]
        rfl
      · rename_i hlen
        exact (List.getElem?_eq_none (Nat.le_of_not_lt hlen)).symm
    · rfl

theorem toggleTask_invariant (idx : Nat) (todos : List Task) (h : TodosInvariant todos) :
    TodosInvariant (toggleTask idx todos) := by
  refine ⟨?_, ?_⟩
  · unfold NoDupCI
    rw [toggleTask_texts]
    exact h.1
  · unfold toggleTask
    cases hg : todos[idx]? with
    | none => exact h.2
    | some t =>
      rw [List.length_set]
      exact h.2

theorem importTasks_length_le (f : ImportFile) (current : List Task)
    (h : current.length ≤ 1000) : (importTasks f current).1.length ≤ 1000 := by
  unfold importTasks importFromContent
  split
  · exact h
  · split
    · exact h
    · dsimp only
      split
      · exact h
      · split
        · exact h
        · rename_i hlines _
          exact Nat.le_trans (List.length_filterMap_le _ _) (Nat.not_lt.mp hlines)

theorem loadFromLocal_length_le (st : Store) : (loadFromLocal st).length ≤ 1000 := by
  rcases st with ⟨blob⟩
  cases blob with
  | absent => exact Nat.zero_le _
  | malformed raw => exact Nat.zero_le _
  | json j =>
    cases j with
    | arr items => exact List.length_take_le _ _
    | null => exact Nat.zero_le _
    | bool b => exact Nat.zero_le _
    | num n => exact Nat.zero_le _
    | str s => exact Nat.zero_le _
    | obj fields => exact Nat.zero_le _

/-- C4 counterexample: the claim includes import among the operations
that maintain the invariant, but importing the two identical lines
`"a\na"` from a valid (empty) list yields two tasks with
case-insensitively equal text. -/
theorem importTasks_breaks_invariant :
    TodosInvariant ([] : List Task) ∧
      ¬ TodosInvariant (importTasks ⟨3, "text/plain", "a.txt", "a\na"⟩ []).1 :=
  ⟨by decide, by decide⟩

/-- C4 amended: add, delete and toggle preserve the invariant (no two
tasks with case-insensitively equal text, at most 1000 tasks); import
and load guarantee only the length bound and may produce
case-insensitive duplicates. -/
theorem operations_invariant (autosave writeFails : Bool) (inputVal : String) (idx : Nat)
    (todos : List Task) (st st2 : Store) (f : ImportFile) :
    (TodosInvariant todos → TodosInvariant (addTask autosave writeFails inputVal todos st).1) ∧
    (TodosInvariant todos → TodosInvariant (deleteTask idx todos)) ∧
    (TodosInvariant todos → TodosInvariant (toggleTask idx todos)) ∧
    (TodosInvariant todos → (importTasks f todos).1.length ≤ 1000) ∧
    (loadFromLocal st2).length ≤ 1000 :=
  ⟨addTask_invariant autosave writeFails inputVal todos st,
   deleteTask_invariant idx todos,
   toggleTask_invariant idx todos,
   fun h => importTasks_length_le f todos h.2,
   loadFromLocal_length_le st2⟩

/-- C4 witness: the amended statement at concrete inputs, all
hypotheses discharged by computation. -/
theorem operations_invariant_witness :
    TodosInvariant (addTask true false "b" [⟨"a", false⟩] emptyStore).1 ∧
    TodosInvariant (deleteTask 0 [⟨"a", false⟩]) ∧
    TodosInvariant (toggleTask 0 [⟨"a", false⟩]) ∧
    (importTasks ⟨1, "text/plain", "a.txt", "x"⟩ [⟨"a", false⟩]).1.length ≤ 1000 ∧
    (loadFromLocal emptyStore).length ≤ 1000 :=
  ⟨(operations_invariant true false "b" 0 [⟨"a", false⟩] emptyStore emptyStore
      ⟨1, "text/plain", "a.txt", "x"⟩).1 (by decide),
   (operations_invariant true false "b" 0 [⟨"a", false⟩] emptyStore emptyStore
      ⟨1, "text/plain", "a.txt", "x"⟩).2.1 (by decide),
   (operations_invariant true false "b" 0 [⟨"a", false⟩] emptyStore emptyStore
      ⟨1, "text/plain", "a.txt", "x"⟩).2.2.1 (by decide),
   (operations_invariant true false "b" 0 [⟨"a", false⟩] emptyStore emptyStore
      ⟨1, "text/plain", "a.txt", "x"⟩).2.2.2.1 (by decide),
   (operations_invariant true false "b" 0 [⟨"a", false⟩] emptyStore emptyStore
      ⟨1, "text/plain", "a.txt", "x"⟩).2.2.2.2⟩

/-! # Claim C1: the persistence round trip

False as stated: a task whose text is itself the output of a previous
sanitization — e.g. `"&amp;" = sanitizeText "&"` — is re-sanitized on
load, and its ampersand is escaped again, so `load (save T) ≠ T` for
such well-formed lists.  The round trip does hold for every list whose
texts are fixed points of `sanitizeText`. -/

/-- C1 counterexample: the single-task list with text
`"&amp;" = sanitizeText "&"` (a sanitized, non-empty text of ≤ 100
characters) saves successfully but loads back with text
`"&amp;amp;"`. -/
theorem load_save_not_roundTrip :
    sanitizeText "&" = "&amp;" ∧
    (saveToLocal true false [⟨"&amp;", false⟩] emptyStore).1 = true ∧
    loadFromLocal (saveToLocal true false [⟨"&amp;", false⟩] emptyStore).2 ≠
      [⟨"&amp;", false⟩] := by
  refine ⟨by decide, by decide, by decide⟩

theorem jsonEscChar_length_le (c : Char) : (jsonEscChar c).length ≤ 6 := by
  unfold jsonEscChar
  repeat' split
  all_goals simp

theorem escList_length_le (l : List Char) :
    ((l.map jsonEscChar).flatten).length ≤ 6 * l.length := by
  induction l with
  | nil => simp
  | cons c t ih =>
    simp only [List.map_cons, List.flatten_cons, List.length_append, List.length_cons]
    have := jsonEscChar_length_le c
    omega

theorem jsonQuote_length_le (s : String) : (jsonQuote s).length ≤ 2 + 6 * s.length := by
  unfold jsonQuote
  rw [String.length_append, String.length_append]
  have h := escList_length_le s.data
  have h1 : ("\"" : String).length = 1 := rfl
  have h2 : (String.mk ((s.data.map jsonEscChar).flatten)).length =
      ((s.data.map jsonEscChar).flatten).length := rfl
  have h3 : s.length = s.data.length := rfl
  omega

theorem taskJsonString_length_le (t : Task) (h : t.text.length ≤ 100) :
    (taskJsonString t).length ≤ 624 := by
  unfold taskJsonString
  simp only [String.length_append]
  have hq := jsonQuote_length_le t.text
  have hd : (if t.done then "true" else "false").length ≤ 5 := by
    cases t.done <;> decide
  have h1 : ("\x7b\"text\":" : String).length = 8 := rfl
  have h2 : (",\"done\":" : String).length = 8 := rfl
  have h3 : ("\x7d" : String).length = 1 := rfl
  omega

theorem jsonItems_length_le (l : List Task) (h : ∀ t ∈ l, t.text.length ≤ 100) :
    (jsonItems l).length ≤ 625 * l.length := by
  induction l with
  | nil => simp [jsonItems]
  | cons t ts ih =>
    have ht := h t (List.mem_cons_self t ts)
    cases ts with
    | nil =>
      have := taskJsonString_length_le t ht
      simp only [jsonItems, List.length_cons, List.length_nil]
      omega
    | cons t2 ts2 =>
      have hrest : ∀ x ∈ t2 :: ts2, x.text.length ≤ 100 := by
        intro x hx
        exact h x (List.mem_cons_of_mem t hx)
      have h1 := taskJsonString_length_le t ht
      have h2 := ih hrest
      show (taskJsonString t ++ "," ++ jsonItems (t2 :: ts2)).length ≤ 625 * (t :: t2 :: ts2).length
      rw [String.length_append, String.length_append]
      have hc : ("," : String).length = 1 := rfl
      simp only [List.length_cons] at h2 ⊢
      omega

theorem todosJsonString_length_le (l : List Task) (hlen : l.length ≤ 1000)
    (h : ∀ t ∈ l, t.text.length ≤ 100) :
    (todosJsonString l).length ≤ 5 * 1024 * 1024 := by
  unfold todosJsonString
  rw [String.length_append, String.length_append]
  have h1 := jsonItems_length_le l h
  have h2 : 625 * l.length ≤ 625 * 1000 := Nat.mul_le_mul_left 625 hlen
  have h3 : ("[" : String).length = 1 := rfl
  have h4 : ("]" : String).length = 1 := rfl
  omega

theorem coerceItem_taskToJson (t : Task) (hfix : sanitizeText t.text = t.text)
    (hne : t.text ≠ "") : coerceItem (taskToJson t) = t := by
  have h1 : jsGetField (taskToJson t) "text" = some (.str t.text) := rfl
  have h2 : jsGetField (taskToJson t) "done" = some (.bool t.done) := rfl
  unfold coerceItem
  rw [h1, h2]
  simp only [jsTruthy, bne_iff_ne, ne_eq, hne, not_false_eq_true, if_true, hfix]

theorem load_map_taskToJson (T : List Task) (hfix : ∀ t ∈ T, sanitizeText t.text = t.text)
    (hne : ∀ t ∈ T, t.text ≠ "") :
    (((T.map taskToJson).filter jsObjLike).map coerceItem).filter (fun t => t.text != "") = T := by
  induction T with
  | nil => rfl
  | cons t ts ih =>
    have hfix1 := hfix t (List.mem_cons_self t ts)
    have hne1 := hne t (List.mem_cons_self t ts)
    have hobj : jsObjLike (taskToJson t) = true := rfl
    simp only [List.map_cons, List.filter_cons, hobj, if_true,
      coerceItem_taskToJson t hfix1 hne1]
    have hkeep : (t.text != "") = true := by
      simp [bne_iff_ne, hne1]
    simp only [hkeep, if_true]
    rw [ih (fun x hx => hfix x (List.mem_cons_of_mem t hx))
      (fun x hx => hne x (List.mem_cons_of_mem t hx))]

/-- C1 amended: the round trip `loadFromLocal (saveToLocal T) = T`
holds (with persistence enabled and no storage failure) for every list
of at most 1000 tasks whose texts are non-empty fixed points of
`sanitizeText` of at most 100 characters; it fails for sanitized texts
that are not fixed points, such as `"&amp;"`. -/
theorem load_save_roundTrip (T : List Task) (hlen : T.length ≤ 1000)
    (hfix : ∀ t ∈ T, sanitizeText t.text = t.text)
    (hne : ∀ t ∈ T, t.text ≠ "")
    (hlen100 : ∀ t ∈ T, t.text.length ≤ 100) :
    (saveToLocal true false T emptyStore).1 = true ∧
    loadFromLocal (saveToLocal true false T emptyStore).2 = T := by
  have hsize := todosJsonString_length_le T hlen hlen100
  have hsave : saveToLocal true false T emptyStore =
      (true, ⟨.json (.arr (T.map taskToJson))⟩) := by
    simp only [saveToLocal, if_true, setItemTodos]
    rw [if_neg (Nat.not_lt.mpr hsize)]
    rfl
  rw [hsave]
  refine ⟨rfl, ?_⟩
  simp only [loadFromLocal]
  rw [load_map_taskToJson T hfix hne]
  exact List.take_of_length_le hlen

/-- C1 witness: the round trip at the concrete list `[⟨"a", true⟩]`. -/
theorem load_save_roundTrip_witness :
    (saveToLocal true false [⟨"a", true⟩] emptyStore).1 = true ∧
    loadFromLocal (saveToLocal true false [⟨"a", true⟩] emptyStore).2 = [⟨"a", true⟩] :=
  load_save_roundTrip [⟨"a", true⟩] (by decide) (by decide) (by decide) (by decide)

/-! # Claim C10: sanitized output contains no raw unsafe characters

The escaping stage (`script.js` lines 65-75) replaces every `<`, `>`,
`"`, `'` of its input by entity text, and the stages after it introduce
at most plain spaces; the final stage filters the control-character
class out.  So whatever the earlier stages produce, the result of
`sanitizeText` contains none of those characters. -/

theorem escChar_safe (c : Char) :
    ∀ x ∈ escChar c, x ≠ '<' ∧ x ≠ '>' ∧ x ≠ '"' ∧ x ≠ '\'' := by
  unfold escChar
  repeat' split
  · decide
  · decide
  · decide
  · decide
  · decide
  · rename_i h1 h2 h3 h4 h5
    intro x hx
    rw [List.mem_singleton] at hx
    subst hx
    simp only [beq_iff_eq] at h1 h2 h3 h4 h5
    exact ⟨h1, h2, h3, h4⟩

theorem collapseWsF_subset :
    ∀ (fuel : Nat) (l : List Char), ∀ c ∈ collapseWsF fuel l, c = ' ' ∨ c ∈ l := by
  intro fuel
  induction fuel with
  | zero =>
    intro l c hc
    cases l with
    | nil => simp [collapseWsF] at hc
    | cons x t => exact Or.inr hc
  | succ n ih =>
    intro l c hc
    cases l with
    | nil => simp [collapseWsF] at hc
    | cons x t =>
      simp only [collapseWsF] at hc
      by_cases hx : isJsWs x
      · rw [if_pos hx] at hc
        rcases List.mem_cons.mp hc with rfl | hc'
        · exact Or.inl rfl
        · rcases ih _ c hc' with rfl | h2
          · exact Or.inl rfl
          · exact Or.inr (List.mem_cons_of_mem x ((List.dropWhile_sublist _).subset h2))
      · rw [if_neg hx] at hc
        rcases List.mem_cons.mp hc with rfl | hc'
        · exact Or.inr (List.mem_cons_self _ _)
        · rcases ih _ c hc' with rfl | h2
          · exact Or.inl rfl
          · exact Or.inr (List.mem_cons_of_mem x h2)

theorem trimWs_subset (l : List Char) : trimWs l ⊆ l := by
  unfold trimWs
  intro c hc
  rw [List.mem_reverse] at hc
  have h1 := (List.dropWhile_sublist _).subset hc
  rw [List.mem_reverse] at h1
  exact (List.dropWhile_sublist _).subset h1

theorem sanitizeText_data (s : String) : (sanitizeText s).data = sanitizeList s.data := by
  have h1 : sanitizeText s = String.mk (sanitizeList s.data) := rfl
  rw [h1]

/-- C10: for every input, the output of `sanitizeText` contains no raw
`<`, `>`, `"` or `'` character and no control character from the class
`[\x00-\x08\x0B\x0C\x0E-\x1F\x7F]`. -/
theorem sanitizeText_output_safe (s : String) :
    ∀ c ∈ (sanitizeText s).data,
      (c ≠ '<' ∧ c ≠ '>' ∧ c ≠ '"' ∧ c ≠ '\'') ∧ isCtlChar c = false := by
  intro c hc
  rw [sanitizeText_data] at hc
  simp only [sanitizeList] at hc
  rw [List.mem_filter] at hc
  obtain ⟨hmem, hctl⟩ := hc
  constructor
  · have h1 := trimWs_subset _ hmem
    rcases collapseWsF_subset _ _ c h1 with rfl | h2
    · decide
    · simp only [escapeChars] at h2
      rcases List.mem_flatten.mp h2 with ⟨lc, hlc, hcl⟩
      rcases List.mem_map.mp hlc with ⟨c0, -, rfl⟩
      exact escChar_safe c0 c hcl
  · simpa using hctl

/-- C10 witness: the theorem applied to the input `"a<b"` and the
output character `'a'`. -/
theorem sanitizeText_output_safe_witness :
    'a' ∈ (sanitizeText "a<b").data ∧
      (('a' ≠ '<' ∧ 'a' ≠ '>' ∧ 'a' ≠ '"' ∧ 'a' ≠ '\'') ∧ isCtlChar 'a' = false) :=
  ⟨by decide, sanitizeText_output_safe "a<b" 'a' (by decide)⟩

/-! # Claim C2 (amended): idempotence on plain text

`sanitizeText` is not idempotent in general (the counterexample above).
On strings of ASCII letters, digits and spaces no removal or escaping
stage fires, so sanitization reduces to whitespace normalisation
(trim, collapse runs, trim), which is idempotent.  The development
below proves each regex stage is the identity on such strings and that
the whitespace normalisation is idempotent. -/

/-- A character the sanitizer's interesting stages cannot touch:
an ASCII letter or digit, or a space. -/
def PlainChar (c : Char) : Prop :=
  c.isAlphanum = true ∨ c = ' '

theorem alnum_toNat {c : Char} (h : c.isAlphanum = true) :
    (48 ≤ c.toNat ∧ c.toNat ≤ 57) ∨ (65 ≤ c.toNat ∧ c.toNat ≤ 90) ∨
      (97 ≤ c.toNat ∧ c.toNat ≤ 122) := by
  simp only [Char.isAlphanum, Char.isAlpha, Char.isUpper, Char.isLower, Char.isDigit,
    Bool.or_eq_true, Bool.and_eq_true, decide_eq_true_eq] at h
  have hs : (90 : Nat) < UInt32.size := by decide
  have hs2 : (65 : Nat) < UInt32.size := by decide
  have hs3 : (97 : Nat) < UInt32.size := by decide
  have hs4 : (122 : Nat) < UInt32.size := by decide
  have hs5 : (48 : Nat) < UInt32.size := by decide
  have hs6 : (57 : Nat) < UInt32.size := by decide
  rcases h with (⟨h1, h2⟩ | ⟨h1, h2⟩) | ⟨h1, h2⟩
  · exact Or.inr (Or.inl ⟨UInt32.le_toNat_of_le hs2 h1, UInt32.toNat_le_of_le hs h2⟩)
  · exact Or.inr (Or.inr ⟨UInt32.le_toNat_of_le hs3 h1, UInt32.toNat_le_of_le hs4 h2⟩)
  · exact Or.inl ⟨UInt32.le_toNat_of_le hs5 h1, UInt32.toNat_le_of_le hs6 h2⟩

theorem alnum_ne {c d : Char} (h : c.isAlphanum = true) (hd : d.isAlphanum = false) :
    c ≠ d := by
  intro he
  subst he
  rw [h] at hd
  cases hd

theorem plain_ne {c : Char} (h : PlainChar c) {d : Char} (hd : d.isAlphanum = false)
    (hds : d ≠ ' ') : c ≠ d := by
  rcases h with h | rfl
  · exact alnum_ne h hd
  · exact fun hc => hds hc.symm

theorem alnum_not_ws {c : Char} (h : c.isAlphanum = true) : isJsWs c = false := by
  have hr := alnum_toNat h
  simp only [isJsWs, Bool.or_eq_false_iff, beq_eq_false_iff_ne, ne_eq,
    Bool.and_eq_false_iff, decide_eq_false_iff_not]
  omega

theorem plain_not_ws_alnum {c : Char} (h : PlainChar c) (hw : isJsWs c = false) :
    c.isAlphanum = true := by
  rcases h with h | rfl
  · exact h
  · exact absurd hw (by decide)

theorem alnum_not_ctl {c : Char} (h : c.isAlphanum = true) : isCtlChar c = false := by
  have hr := alnum_toNat h
  simp only [isCtlChar, Bool.or_eq_false_iff, beq_eq_false_iff_ne, ne_eq,
    Bool.and_eq_false_iff, decide_eq_false_iff_not]
  omega

theorem plain_not_ctl {c : Char} (h : PlainChar c) : isCtlChar c = false := by
  rcases h with h | rfl
  · exact alnum_not_ctl h
  · decide

theorem toNat_ofNat_valid {n : Nat} (h : n < 55296) : (Char.ofNat n).toNat = n := by
  rw [Char.ofNat, dif_pos (Or.inl h)]
  rfl

/-- On a plain character, ASCII lower-casing never produces `<`. -/
theorem plain_lowChar_ne_lt {c : Char} (h : PlainChar c) : lowChar c ≠ '<' := by
  show (if c.toNat ≥ 65 ∧ c.toNat ≤ 90 then Char.ofNat (c.toNat + 32) else c) ≠ '<'
  split
  · rename_i hup
    intro he
    have h1 := congrArg Char.toNat he
    rw [toNat_ofNat_valid (by omega)] at h1
    have h60 : ('<').toNat = 60 := by decide
    omega
  · exact plain_ne h (by decide) (by decide)

/-! ## The removal stages are the identity on plain strings -/

theorem scanRemoveF_id (f : List Char → Option Nat) (P : Char → Prop)
    (hf : ∀ l, (∀ c ∈ l, P c) → f l = none) :
    ∀ (fuel : Nat) (l : List Char), (∀ c ∈ l, P c) → scanRemoveF f fuel l = l := by
  intro fuel
  induction fuel with
  | zero =>
    intro l h
    cases l with
    | nil => rfl
    | cons c t => rfl
  | succ n ih =>
    intro l h
    cases l with
    | nil => rfl
    | cons c t =>
      simp only [scanRemoveF, hf (c :: t) h]
      rw [ih t (fun x hx => h x (List.mem_cons_of_mem c hx))]

theorem scanRemove_id (f : List Char → Option Nat) (P : Char → Prop)
    (hf : ∀ l, (∀ c ∈ l, P c) → f l = none)
    (l : List Char) (h : ∀ c ∈ l, P c) : scanRemove f l = l :=
  scanRemoveF_id f P hf l.length l h

theorem startsWithCI_lt_false (name : List Char) (l : List Char)
    (h : ∀ c ∈ l, PlainChar c) : startsWithCI ('<' :: name) l = false := by
  cases l with
  | nil => rfl
  | cons c t =>
    have hne : lowChar c ≠ lowChar '<' := by
      rw [show lowChar '<' = '<' from by decide]
      exact plain_lowChar_ne_lt (h c (List.mem_cons_self c t))
    simp only [startsWithCI, Bool.and_eq_false_iff, beq_eq_false_iff_ne, ne_eq]
    exact Or.inl hne

theorem matchBlock_none (name : List Char) (l : List Char)
    (h : ∀ c ∈ l, PlainChar c) : matchBlock name l = none := by
  unfold matchBlock
  rw [startsWithCI_lt_false name l h]
  rfl

theorem matchSelfClosing_none (name : List Char) (l : List Char)
    (h : ∀ c ∈ l, PlainChar c) : matchSelfClosing name l = none := by
  unfold matchSelfClosing
  rw [startsWithCI_lt_false name l h]
  rfl

theorem matchAnyTag_none (l : List Char) (h : ∀ c ∈ l, PlainChar c) :
    matchAnyTag l = none := by
  unfold matchAnyTag
  split
  · exfalso
    exact plain_ne (h '<' (List.mem_cons_self _ _)) (by decide) (by decide) rfl
  · rfl

theorem drop_length_takeWhile (p : Char → Bool) (l : List Char) :
    l.drop (l.takeWhile p).length = l.dropWhile p := by
  induction l with
  | nil => rfl
  | cons c t ih =>
    by_cases hp : p c
    · simp only [List.takeWhile_cons, List.dropWhile_cons, hp, if_true, List.length_cons,
        List.drop_succ_cons]
      exact ih
    · simp only [List.takeWhile_cons, List.dropWhile_cons, hp, if_false, List.length_nil,
        List.drop_zero, Bool.false_eq_true]

theorem dropWhile_head_false {p : Char → Bool} {l : List Char} {d : Char} {rest : List Char}
    (h : l.dropWhile p = d :: rest) : p d = false := by
  have hh := List.head?_dropWhile_not p l
  rw [h] at hh
  exact hh

theorem matchScheme_none (name : List Char) (l : List Char)
    (h : ∀ c ∈ l, PlainChar c) : matchScheme name l = none := by
  unfold matchScheme
  by_cases hs : startsWithCI name l = true
  · rw [if_pos hs]
    cases hd : (l.drop name.length).dropWhile isJsWs with
    | nil => rfl
    | cons d rest =>
      have hdw : isJsWs d = false := dropWhile_head_false hd
      have hdl : d ∈ l := List.drop_subset _ l
        ((List.dropWhile_sublist _).subset (hd ▸ List.mem_cons_self d rest))
      have hda : d.isAlphanum = true := plain_not_ws_alnum (h d hdl) hdw
      have hdc : d ≠ ':' := alnum_ne hda (by decide)
      split
      · rename_i heq
        injection heq with h1 h2
        exact absurd h1 hdc
      · rfl
  · rw [if_neg hs]

theorem matchOnHandler_none (l : List Char) (h : ∀ c ∈ l, PlainChar c) :
    matchOnHandler l = none := by
  unfold matchOnHandler
  by_cases hs : startsWithCI ['o', 'n'] l = true
  · rw [if_pos hs]
    by_cases hw : (((l.drop 2).takeWhile isWordChar).length == 0) = true
    · rw [if_pos hw]
    · rw [if_neg hw]
      cases hd : ((l.drop 2).dropWhile isWordChar).dropWhile isJsWs with
      | nil => rfl
      | cons d rest =>
        have hdw : isJsWs d = false := dropWhile_head_false hd
        have hdl : d ∈ l := by
          have h1 : d ∈ (l.drop 2).dropWhile isWordChar :=
            (List.dropWhile_sublist _).subset (hd ▸ List.mem_cons_self d rest)
          exact List.drop_subset _ l ((List.dropWhile_sublist _).subset h1)
        have hda : d.isAlphanum = true := plain_not_ws_alnum (h d hdl) hdw
        have hdc : d ≠ '=' := alnum_ne hda (by decide)
        split
        · rename_i heq
          injection heq with h1 h2
          exact absurd h1 hdc
        · rfl
  · rw [if_neg hs]

/-! ## The escaping and control-filter stages are the identity on plain strings -/

theorem escChar_plain {c : Char} (h : PlainChar c) : escChar c = [c] := by
  have h1 : c ≠ '<' := plain_ne h (by decide) (by decide)
  have h2 : c ≠ '>' := plain_ne h (by decide) (by decide)
  have h3 : c ≠ '"' := plain_ne h (by decide) (by decide)
  have h4 : c ≠ '\'' := plain_ne h (by decide) (by decide)
  have h5 : c ≠ '&' := plain_ne h (by decide) (by decide)
  simp [escChar, h1, h2, h3, h4, h5]

theorem escapeChars_plain (l : List Char) (h : ∀ c ∈ l, PlainChar c) :
    escapeChars l = l := by
  unfold escapeChars
  induction l with
  | nil => rfl
  | cons c t ih =>
    simp only [List.map_cons, List.flatten_cons]
    rw [escChar_plain (h c (List.mem_cons_self c t)),
      ih (fun x hx => h x (List.mem_cons_of_mem c hx))]
    rfl

theorem filter_ctl_plain (l : List Char) (h : ∀ c ∈ l, PlainChar c) :
    l.filter (fun c => !isCtlChar c) = l :=
  List.filter_eq_self.mpr (fun a ha => by rw [plain_not_ctl (h a ha)]; rfl)

/-! ## Whitespace normalisation: `trim` and collapse -/

/-- The shape of whitespace-collapsed text: every whitespace character
is a plain space and no two adjacent characters are both whitespace. -/
def WsNorm (l : List Char) : Prop :=
  (∀ c ∈ l, isJsWs c = true → c = ' ') ∧
    l.Chain' (fun a b => ¬(isJsWs a = true ∧ isJsWs b = true))

theorem wsNorm_nil : WsNorm [] := ⟨by simp, List.chain'_nil⟩

theorem wsNorm_tail {c : Char} {t : List Char} (h : WsNorm (c :: t)) : WsNorm t :=
  ⟨fun x hx hw => h.1 x (List.mem_cons_of_mem c hx) hw, h.2.tail⟩

theorem collapseWsF_head_cons (n : Nat) (d : Char) (t : List Char) (hd : isJsWs d = false) :
    ∃ rest, collapseWsF n (d :: t) = d :: rest := by
  cases n with
  | zero => exact ⟨t, rfl⟩
  | succ m => exact ⟨collapseWsF m t, by simp [collapseWsF, hd]⟩

theorem collapseWsF_norm : ∀ (fuel : Nat) (l : List Char), l.length ≤ fuel →
    WsNorm (collapseWsF fuel l) := by
  intro fuel
  induction fuel with
  | zero =>
    intro l hl
    have h0 : l = [] := List.length_eq_zero.mp (Nat.le_zero.mp hl)
    subst h0
    exact wsNorm_nil
  | succ n ih =>
    intro l hl
    cases l with
    | nil => exact wsNorm_nil
    | cons c t =>
      have hl' : t.length ≤ n := by
        simp only [List.length_cons] at hl
        omega
      by_cases hc : isJsWs c = true
      · rw [show collapseWsF (n+1) (c::t) = ' ' :: collapseWsF n (t.dropWhile isJsWs) from
          by simp [collapseWsF, hc]]
        have hlen : (t.dropWhile isJsWs).length ≤ n :=
          Nat.le_trans (List.dropWhile_sublist _).length_le hl'
        have hres := ih _ hlen
        refine ⟨?_, ?_⟩
        · intro x hx hwx
          rcases List.mem_cons.mp hx with rfl | hx'
          · rfl
          · exact hres.1 x hx' hwx
        · refine List.Chain'.cons' hres.2 ?_
          intro y hy
          cases hdrop : t.dropWhile isJsWs with
          | nil =>
            rw [hdrop] at hy
            simp [collapseWsF] at hy
          | cons d rest =>
            have hdws : isJsWs d = false := dropWhile_head_false hdrop
            rcases collapseWsF_head_cons n d rest hdws with ⟨r2, hr2⟩
            rw [hdrop, hr2] at hy
            simp only [List.head?_cons, Option.mem_def, Option.some.injEq] at hy
            subst hy
            intro hcon
            rw [hdws] at hcon
            exact absurd hcon.2 (by simp)
      · have hc' : isJsWs c = false := by
          cases hx : isJsWs c
          · rfl
          · exact absurd hx hc
        rw [show collapseWsF (n+1) (c::t) = c :: collapseWsF n t from
          by simp [collapseWsF, hc']]
        have hres := ih t hl'
        refine ⟨?_, ?_⟩
        · intro x hx hwx
          rcases List.mem_cons.mp hx with rfl | hx'
          · rw [hc'] at hwx
            cases hwx
          · exact hres.1 x hx' hwx
        · refine List.Chain'.cons' hres.2 ?_
          intro y hy hcon
          rw [hc'] at hcon
          exact absurd hcon.1 (by simp)

theorem collapseWsF_wsNorm_id : ∀ (fuel : Nat) (l : List Char), WsNorm l →
    collapseWsF fuel l = l := by
  intro fuel
  induction fuel with
  | zero =>
    intro l h
    cases l <;> rfl
  | succ n ih =>
    intro l h
    cases l with
    | nil => rfl
    | cons c t =>
      by_cases hc : isJsWs c = true
      · have hsp : c = ' ' := h.1 c (List.mem_cons_self c t) hc
        have hdrop : t.dropWhile isJsWs = t := by
          cases t with
          | nil => rfl
          | cons d rest =>
            have hrel : ¬(isJsWs c = true ∧ isJsWs d = true) := h.2.rel_head
            have hdf : isJsWs d = false := by
              cases hx : isJsWs d
              · rfl
              · exact absurd ⟨hc, hx⟩ hrel
            simp [List.dropWhile_cons, hdf]
        rw [show collapseWsF (n+1) (c::t) = ' ' :: collapseWsF n (t.dropWhile isJsWs) from
          by simp [collapseWsF, hc]]
        rw [hdrop, ih t (wsNorm_tail h), hsp]
      · have hc' : isJsWs c = false := by
          cases hx : isJsWs c
          · rfl
          · exact absurd hx hc
        rw [show collapseWsF (n+1) (c::t) = c :: collapseWsF n t from
          by simp [collapseWsF, hc']]
        rw [ih t (wsNorm_tail h)]

theorem collapseWs_wsNorm_id (l : List Char) (h : WsNorm l) : collapseWs l = l :=
  collapseWsF_wsNorm_id l.length l h

theorem trimWs_isInfix (l : List Char) : trimWs l <:+: l := by
  unfold trimWs
  have h1 : ((l.dropWhile isJsWs).reverse.dropWhile isJsWs).reverse <+:
      (l.dropWhile isJsWs).reverse.reverse :=
    List.reverse_prefix.mpr (List.dropWhile_suffix _)
  rw [List.reverse_reverse] at h1
  exact h1.isInfix.trans (List.dropWhile_suffix _).isInfix

theorem dropWhile_idem (p : Char → Bool) (l : List Char) :
    (l.dropWhile p).dropWhile p = l.dropWhile p := by
  cases hd : l.dropWhile p with
  | nil => rfl
  | cons d rest =>
    have hdf := dropWhile_head_false hd
    simp [List.dropWhile_cons, hdf]

theorem dropWhile_prefix_self (p : Char → Bool) (l₁ l₂ : List Char) (hp : l₁ <+: l₂)
    (h : l₂.dropWhile p = l₂) : l₁.dropWhile p = l₁ := by
  cases l₁ with
  | nil => rfl
  | cons a t =>
    obtain ⟨u, hu⟩ := hp
    have hpa : p a = false := by
      cases hx : p a
      · rfl
      · exfalso
        rw [← hu] at h
        simp only [List.cons_append, List.dropWhile_cons, hx, if_true] at h
        have hle : ((t ++ u).dropWhile p).length ≤ (t ++ u).length :=
          (List.dropWhile_sublist _).length_le
        rw [h] at hle
        simp at hle
    simp [List.dropWhile_cons, hpa]

theorem trimWs_idem (l : List Char) : trimWs (trimWs l) = trimWs l := by
  unfold trimWs
  have h1 : ((l.dropWhile isJsWs).reverse.dropWhile isJsWs).reverse.dropWhile isJsWs =
      ((l.dropWhile isJsWs).reverse.dropWhile isJsWs).reverse := by
    refine dropWhile_prefix_self isJsWs _ (l.dropWhile isJsWs) ?_ ?_
    · have h2 : ((l.dropWhile isJsWs).reverse.dropWhile isJsWs).reverse <+:
          (l.dropWhile isJsWs).reverse.reverse :=
        List.reverse_prefix.mpr (List.dropWhile_suffix _)
      rw [List.reverse_reverse] at h2
      exact h2
    · exact dropWhile_idem _ l
  rw [h1, List.reverse_reverse, dropWhile_idem]

/-! ## Assembly: sanitization is whitespace normalisation on plain text -/

theorem plain_trimWs {l : List Char} (h : ∀ c ∈ l, PlainChar c) :
    ∀ c ∈ trimWs l, PlainChar c :=
  fun c hc => h c (trimWs_subset l hc)

theorem plain_collapseWs {l : List Char} (h : ∀ c ∈ l, PlainChar c) :
    ∀ c ∈ collapseWs l, PlainChar c := by
  intro c hc
  rcases collapseWsF_subset _ _ c hc with rfl | h2
  · exact Or.inr rfl
  · exact h c h2

theorem sanitizeList_plain (l : List Char) (h : ∀ c ∈ l, PlainChar c) :
    sanitizeList l = trimWs (collapseWs (trimWs l)) := by
  have h0 : ∀ c ∈ trimWs l, PlainChar c := plain_trimWs h
  simp only [sanitizeList]
  rw [scanRemove_id _ _ (matchBlock_none "script".data) _ h0,
    scanRemove_id _ _ (matchBlock_none "style".data) _ h0,
    scanRemove_id _ _ (matchBlock_none "iframe".data) _ h0,
    scanRemove_id _ _ (matchBlock_none "object".data) _ h0,
    scanRemove_id _ _ (matchBlock_none "embed".data) _ h0,
    scanRemove_id _ _ (matchSelfClosing_none "link".data) _ h0,
    scanRemove_id _ _ (matchSelfClosing_none "meta".data) _ h0,
    scanRemove_id _ _ matchOnHandler_none _ h0,
    scanRemove_id _ _ (matchScheme_none "javascript".data) _ h0,
    scanRemove_id _ _ (matchScheme_none "data".data) _ h0,
    scanRemove_id _ _ (matchScheme_none "vbscript".data) _ h0,
    scanRemove_id _ _ matchAnyTag_none _ h0,
    escapeChars_plain _ h0,
    filter_ctl_plain _ (plain_trimWs (plain_collapseWs h0))]

theorem sanitizeList_idem_plain (l : List Char) (h : ∀ c ∈ l, PlainChar c) :
    sanitizeList (sanitizeList l) = sanitizeList l := by
  have h0 := plain_trimWs h
  have hu : ∀ c ∈ trimWs (collapseWs (trimWs l)), PlainChar c :=
    plain_trimWs (plain_collapseWs h0)
  rw [sanitizeList_plain l h, sanitizeList_plain _ hu, trimWs_idem]
  have h2 : WsNorm (trimWs (collapseWs (trimWs l))) := by
    have hn : WsNorm (collapseWs (trimWs l)) :=
      collapseWsF_norm _ _ (Nat.le_refl _)
    exact ⟨fun c hc hw => hn.1 c (trimWs_subset _ hc) hw, List.Chain'.infix hn.2 (trimWs_isInfix _)⟩
  rw [collapseWs_wsNorm_id _ h2, trimWs_idem]

/-- C2 amended: on strings consisting only of ASCII letters, digits and
spaces — text none of the removal, escaping or control stages can touch
— `sanitizeText` is idempotent; in general it is not, because the `&`
of entities produced by the first pass is escaped again (see the
counterexample). -/
theorem sanitizeText_idempotent_plain (s : String)
    (h : ∀ c ∈ s.data, c.isAlphanum = true ∨ c = ' ') :
    sanitizeText (sanitizeText s) = sanitizeText s := by
  have h1 : sanitizeText (sanitizeText s) =
      String.mk (sanitizeList ((sanitizeText s).data)) := rfl
  rw [h1, sanitizeText_data s, sanitizeList_idem_plain s.data h]
  rfl

/-- C2 witness: idempotence at the concrete plain string `"a  b"`
(which sanitization does change, collapsing the double space). -/
theorem sanitizeText_idempotent_plain_witness :
    (∀ c ∈ ("a  b" : String).data, c.isAlphanum = true ∨ c = ' ') ∧
      sanitizeText (sanitizeText "a  b") = sanitizeText "a  b" :=
  ⟨by decide, sanitizeText_idempotent_plain "a  b" (by decide)⟩

end Todo
